import Mathlib

/-!
Verification model of the GDB remote-serial-protocol client in
`src/scripts/gdb.py` (blackmagic-debug/blackmagic).

Bytes are modelled as natural numbers (Python `bytes` elements are ints in
0..255); byte strings are `List Nat`.  Stateful socket I/O is modelled by
passing the incoming byte stream as a list and returning the bytes the code
writes on the socket together with the remaining input.
-/

/-- Byte values of a Lean string literal (used for the ASCII constants the
Python source writes as `b"..."` / `"..."` literals). -/
def strBytes (s : String) : List Nat := s.data.map Char.toNat

/-- Uppercase hex digit character for a nibble, as produced by Python
`b"#%02X" % (csum & 0xff)` in `Target.putpacket`. -/
def hexDigit (n : Nat) : Nat := if n < 10 then 48 + n else 55 + n

/-- Value of a single hex digit character, as accepted by Python
`int(s, 16)` in `Target.getpacket` (both cases accepted). -/
def hexVal (c : Nat) : Option Nat :=
  if 48 ≤ c ∧ c ≤ 57 then some (c - 48)
  else if 65 ≤ c ∧ c ≤ 70 then some (c - 55)
  else if 97 ≤ c ∧ c ≤ 102 then some (c - 87)
  else none

/-- One step of the escaping loop of `Target.putpacket`: the three reserved
bytes `b'$#}'` (36, 35, 125) are sent as `}` followed by the byte XOR 0x20;
every other byte is sent literally. -/
def escape1 (c : Nat) : List Nat :=
  if c = 36 ∨ c = 35 ∨ c = 125 then [125, c ^^^ 32] else [c]

/-- The escaped payload `out` built by `Target.putpacket`. -/
def escaped (p : List Nat) : List Nat := p.flatMap escape1

/-- The wire bytes `outb = b'$' + bytes(out) + b'#%02X' % (csum & 0xff)`
built by `Target.putpacket` for one transmission attempt. -/
def putpacketBytes (p : List Nat) : List Nat :=
  36 :: escaped p ++
    [35, hexDigit ((escaped p).sum % 256 / 16), hexDigit ((escaped p).sum % 256 % 16)]

/-- Receiver state of `Target.getpacket`: before the start marker (`seek`),
inside a frame (`body`, carrying the accumulated packet and checksum), right
after the escape byte (`esc`), or reading the first/second checksum digit
(`check1` / `check2`). -/
inductive GPState
  | seek
  | body (acc : List Nat) (csum : Nat)
  | esc (acc : List Nat) (csum : Nat)
  | check1 (acc : List Nat) (csum : Nat)
  | check2 (acc : List Nat) (csum : Nat) (d1 : Nat)

/-- Byte-at-a-time run of `Target.getpacket` over the incoming stream.
`outs` accumulates the bytes the function writes on the socket
(`b'-'` = 45 after a checksum mismatch, `b'+'` = 43 on success).  Returns
`some (written bytes, payload, unconsumed input)`, or `none` when the input
ends mid-frame (the Python code would block in `recv`) or when a checksum
digit is not hex (Python `int(..., 16)` raises). -/
def gpRun : List Nat → GPState → List Nat → Option (List Nat × List Nat × List Nat)
  | _, _, [] => none
  | outs, .seek, c :: rest =>
    if c = 36 then gpRun outs (.body [] 0) rest else gpRun outs .seek rest
  | outs, .body acc csum, c :: rest =>
    if c = 35 then gpRun outs (.check1 acc csum) rest
    else if c = 36 then gpRun outs (.body [] 0) rest
    else if c = 125 then gpRun outs (.esc acc csum) rest
    else gpRun outs (.body (acc ++ [c]) (csum + c)) rest
  | outs, .esc acc csum, c :: rest =>
    gpRun outs (.body (acc ++ [c ^^^ 32]) (csum + c + 125)) rest
  | outs, .check1 acc csum, c :: rest =>
    match hexVal c with
    | some d1 => gpRun outs (.check2 acc csum d1) rest
    | none => none
  | outs, .check2 acc csum d1, c :: rest =>
    match hexVal c with
    | some d2 =>
      if csum % 256 = 16 * d1 + d2 then some (outs ++ [43], acc, rest)
      else gpRun (outs ++ [45]) .seek rest
    | none => none

/-- `Target.getpacket` on a given incoming stream: start seeking the start
marker with no bytes written yet. -/
def getpacket (input : List Nat) : Option (List Nat × List Nat × List Nat) :=
  gpRun [] .seek input

/-- A frame whose payload is correctly escaped but whose two checksum digits
are the (in-range) digits `d1 d2` chosen freely — used to express frames with
a corrupted checksum. -/
def corruptFrame (p : List Nat) (d1 d2 : Nat) : List Nat :=
  36 :: escaped p ++ [35, hexDigit d1, hexDigit d2]

/-- Python `bytes.fromhex` on an even-length string of hex digits (the
`unhexify` helper of gdb.py); `none` models the `ValueError` raised on odd
length or a non-hex character. -/
def hexPairs : List Nat → Option (List Nat)
  | [] => some []
  | [_] => none
  | a :: b :: rest =>
    match hexVal a, hexVal b with
    | some x, some y => (hexPairs rest).map (fun l => (16 * x + y) :: l)
    | _, _ => none

/-- `unhexify(s)` from gdb.py: convert hex-encoded bytes into a bytes object. -/
def unhexify (s : List Nat) : Option (List Nat) := hexPairs s

/-- `Target.read_regs` as a function of the reply to the `g` packet.
The source (gdb.py lines 186-197) checks for an empty or `E`-prefixed reply,
hex-decodes the reply, and then evaluates `array.array('I', data)` — but the
module never imports `array` (its imports are `xml.dom.minidom.parseString`,
`struct` and `time`), so the success path always raises
`NameError: name 'array' is not defined` instead of returning the register
words. -/
def read_regs (reply : List Nat) : Except String (List Nat) :=
  if reply = [] ∨ reply.head? = some 69 then
    Except.error "Error reading target core registers"
  else
    match unhexify reply with
    | none => Except.error "Invalid response to registers read packet"
    | some _ => Except.error "NameError: name 'array' is not defined"

/-- Python values as compared by `==` in the stop-reply signal table of
`Target.run_stub`: a `str` and a `bytes` object are never equal in
Python 3. -/
inductive PyScalar
  | pystr (s : List Nat)
  | pybytes (b : List Nat)

/-- Python `==` between `str`/`bytes` scalars (cross-type comparison is
always false in Python 3). -/
def pyEq : PyScalar → PyScalar → Bool
  | .pystr a, .pystr b => a == b
  | .pybytes a, .pybytes b => a == b
  | _, _ => false

/-- The signal-name dictionary of `Target.run_stub`; its keys are `str`
literals in the source. -/
def stopSignalTable : List (PyScalar × List Nat) :=
  [(.pystr (strBytes "T02"), strBytes " (SIGINT)"),
   (.pystr (strBytes "T05"), strBytes " (SIGTRAP)"),
   (.pystr (strBytes "T0B"), strBytes " (SIGSEGV)"),
   (.pystr (strBytes "T1D"), strBytes " (SIGLOST)")]

/-- `pattern.startswith` test used by `reply.startswith(b"T05")`. -/
def bytesStartsWith : List Nat → List Nat → Bool
  | [], _ => true
  | _ :: _, [] => false
  | a :: ps, b :: s => a == b && bytesStartsWith ps s

/-- Substring test on byte lists (used to state what a message does not
contain). -/
def bytesContains (pat : List Nat) : List Nat → Bool
  | [] => bytesStartsWith pat []
  | b :: rest => bytesStartsWith pat (b :: rest) || bytesContains pat rest

/-- Python `repr` of a bytes object consisting of printable ASCII characters
(no quotes or backslashes): `b'...'`. -/
def pyByteRepr (b : List Nat) : List Nat := 98 :: 39 :: b ++ [39]

/-- The stop-reply handling at the end of `Target.run_stub` (gdb.py lines
243-252) as a function of the received non-empty stop reply: `none` when the
reply starts with `b"T05"` (success), otherwise `some message` for the
raised `Exception(message)`.  The signal annotation is looked up with the
whole `bytes` reply as key in a dict whose keys are `str`, mirroring
`{'T02': ...}[reply]` in the source. -/
def run_stub_stop_check (reply : List Nat) : Option (List Nat) :=
  if bytesStartsWith (strBytes "T05") reply then none
  else
    match stopSignalTable.find? (fun kv => pyEq kv.1 (.pybytes reply)) with
    | some kv => some (strBytes "Invalid stop response: " ++ pyByteRepr reply ++ kv.2)
    | none => some (strBytes "Invalid stop response: " ++ pyByteRepr reply)

/-- `Target.FlashMemory`: base `offset`, total `length`, erase `blocksize`,
and the per-block staging buffers (`None` = untouched). -/
structure FlashMemory where
  offset : Nat
  length : Nat
  blocksize : Nat
  blocks : List (Option (List Nat))
deriving DecidableEq

/-- `Target.FlashMemory.__init__`: all `length // blocksize` blocks start
absent. -/
def flashInit (offset length blocksize : Nat) : FlashMemory :=
  { offset := offset, length := length, blocksize := blocksize,
    blocks := List.replicate (length / blocksize) none }

/-- The block splicing `blocks[index][:bloffset] + bldata +
blocks[index][bloffset+len(bldata):]` of `FlashMemory.prog`. -/
def splice (cur : List Nat) (p : Nat) (d : List Nat) : List Nat :=
  cur.take p ++ d ++ cur.drop (p + d.length)

/-- The `while data:` loop of `FlashMemory.prog`, structurally recursive on
a fuel argument (each iteration consumes at least one data byte, so
`data.length` fuel always suffices; the zero-fuel case with data left is
unreachable from `progLoop`).  Returns `none` where the Python loop raises:
`blocksize = 0` (ZeroDivisionError) or a computed block index past the end
of the block list (IndexError, possible only when `blocksize` does not
divide `length`). -/
def progLoopF (bs base : Nat) :
    Nat → List (Option (List Nat)) → Nat → List Nat → Option (List (Option (List Nat)))
  | _, blocks, _, [] => some blocks
  | 0, _, _, _ :: _ => none
  | fuel + 1, blocks, off, c :: ds =>
    if bs = 0 then none
    else
      if (off - base) / bs < blocks.length then
        progLoopF bs base fuel
          (blocks.set ((off - base) / bs)
            (some (splice
              ((blocks.getD ((off - base) / bs) none).getD (List.replicate bs 255))
              ((off - base) % bs)
              ((c :: ds).take (bs - (off - base) % bs)))))
          (off + ((c :: ds).take (bs - (off - base) % bs)).length)
          ((c :: ds).drop (bs - (off - base) % bs))
      else none

/-- The `while data:` loop of `FlashMemory.prog`. -/
def progLoop (bs base : Nat) (blocks : List (Option (List Nat))) (off : Nat)
    (data : List Nat) : Option (List (Option (List Nat))) :=
  progLoopF bs base data.length blocks off data

/-- `FlashMemory.prog(offset, data)`: the leading `assert` requires the
written range to lie inside the region; on success the staged blocks are
updated by `progLoop`. -/
def prog (m : FlashMemory) (off : Nat) (data : List Nat) : Option FlashMemory :=
  if m.offset ≤ off ∧ off + data.length ≤ m.offset + m.length then
    (progLoop m.blocksize m.offset m.blocks off data).map
      (fun bl => { m with blocks := bl })
  else none

/-- The flash commands `FlashMemory.commit` sends over the channel. -/
inductive FlashCmd
  | erase (addr len : Nat)
  | write (addr : Nat) (data : List Nat)
  | done
deriving DecidableEq

/-- Erase commands among a command list (to count erase cycles). -/
def eraseCmds (cs : List FlashCmd) : List FlashCmd :=
  cs.filter (fun c => match c with | .erase _ _ => true | _ => false)

/-- Concatenation of all bytes carried by write commands, in order. -/
def writtenBytes (cs : List FlashCmd) : List Nat :=
  cs.flatMap (fun c => match c with | .write _ d => d | _ => [])

/-- The inner `while data:` chunking loop of `FlashMemory.commit`, fuel-based
(each iteration consumes at least one byte, so `data.length` fuel always
suffices): 980-byte `vFlashWrite` chunks at a running address.  `replies k`
is the truth of `getpacket() == b'OK'` for the `k`-th command of the whole
commit.  Returns the commands issued, the next command index, and the error
raised (if any). -/
def chunkWritesF (replies : Nat → Bool) :
    Nat → Nat → List Nat → Nat → List FlashCmd × Nat × Option String
  | _, _, [], k => ([], k, none)
  | 0, _, _ :: _, k => ([], k, none)
  | fuel + 1, addr, c :: ds, k =>
    if replies k then
      ((FlashCmd.write addr ((c :: ds).take 980)) ::
          (chunkWritesF replies fuel (addr + ((c :: ds).take 980).length)
            ((c :: ds).drop 980) (k + 1)).1,
        (chunkWritesF replies fuel (addr + ((c :: ds).take 980).length)
          ((c :: ds).drop 980) (k + 1)).2.1,
        (chunkWritesF replies fuel (addr + ((c :: ds).take 980).length)
          ((c :: ds).drop 980) (k + 1)).2.2)
    else ([FlashCmd.write addr ((c :: ds).take 980)], k + 1, some "Failed to write flash")

/-- The inner `while data:` chunking loop of `FlashMemory.commit`. -/
def chunkWrites (addr : Nat) (data : List Nat) (replies : Nat → Bool) (k : Nat) :
    List FlashCmd × Nat × Option String :=
  chunkWritesF replies data.length addr data k

/-- The `for i in range(len(self.blocks))` loop of `FlashMemory.commit`.
`i` is the block index, `blk` the running `block` counter, `k` the command
index; `cb` records whether a progress callback was supplied; `total` is the
touched-block count.  Produces (commands issued, progress-callback arguments
as `(block, totalblocks)` pairs, error raised). -/
def commitLoop (off bs total : Nat) (cb : Bool) (replies : Nat → Bool) :
    List (Option (List Nat)) → Nat → Nat → Nat →
      List FlashCmd × List (Nat × Nat) × Option String
  | [], _, _, _ => ([], [], none)
  | none :: rest, i, blk, k =>
    ((commitLoop off bs total cb replies rest (i + 1) (blk + 1) k).1,
     (if cb ∧ 0 < total then [(blk + 1, total)] else []) ++
       (commitLoop off bs total cb replies rest (i + 1) (blk + 1) k).2.1,
     (commitLoop off bs total cb replies rest (i + 1) (blk + 1) k).2.2)
  | some data :: rest, i, blk, k =>
    if replies k then
      match (chunkWrites (off + bs * i) data replies (k + 1)).2.2 with
      | some e =>
        (FlashCmd.erase (off + bs * i) bs ::
           (chunkWrites (off + bs * i) data replies (k + 1)).1,
         if cb ∧ 0 < total then [(blk + 1, total)] else [], some e)
      | none =>
        if replies ((chunkWrites (off + bs * i) data replies (k + 1)).2.1) then
          (FlashCmd.erase (off + bs * i) bs ::
             (chunkWrites (off + bs * i) data replies (k + 1)).1 ++ FlashCmd.done ::
             (commitLoop off bs total cb replies rest (i + 1) (blk + 1)
               ((chunkWrites (off + bs * i) data replies (k + 1)).2.1 + 1)).1,
           (if cb ∧ 0 < total then [(blk + 1, total)] else []) ++
             (commitLoop off bs total cb replies rest (i + 1) (blk + 1)
               ((chunkWrites (off + bs * i) data replies (k + 1)).2.1 + 1)).2.1,
           (commitLoop off bs total cb replies rest (i + 1) (blk + 1)
             ((chunkWrites (off + bs * i) data replies (k + 1)).2.1 + 1)).2.2)
        else
          (FlashCmd.erase (off + bs * i) bs ::
             (chunkWrites (off + bs * i) data replies (k + 1)).1 ++ [FlashCmd.done],
           if cb ∧ 0 < total then [(blk + 1, total)] else [],
           some "Failed to commit")
    else
      ([FlashCmd.erase (off + bs * i) bs],
       if cb ∧ 0 < total then [(blk + 1, total)] else [],
       some "Failed to erase flash")

/-- Result of one `FlashMemory.commit` call. -/
structure CommitOut where
  cmds : List FlashCmd
  progressCalls : List (Nat × Nat)
  error : Option String
  blocks : List (Option (List Nat))
deriving DecidableEq

/-- `FlashMemory.commit(progress_cb)`: counts touched blocks, runs the block
loop, and — only when no exception was raised — resets every block to absent
(the reset statement is the last line of the method, after the loop, with no
`finally`). -/
def commit (m : FlashMemory) (cb : Bool) (replies : Nat → Bool) : CommitOut :=
  { cmds := (commitLoop m.offset m.blocksize
      (m.blocks.countP (fun b => b.isSome)) cb replies m.blocks 0 0 0).1,
    progressCalls := (commitLoop m.offset m.blocksize
      (m.blocks.countP (fun b => b.isSome)) cb replies m.blocks 0 0 0).2.1,
    error := (commitLoop m.offset m.blocksize
      (m.blocks.countP (fun b => b.isSome)) cb replies m.blocks 0 0 0).2.2,
    blocks :=
      match (commitLoop m.offset m.blocksize
        (m.blocks.countP (fun b => b.isSome)) cb replies m.blocks 0 0 0).2.2 with
      | none => List.replicate (m.length / m.blocksize) none
      | some _ => m.blocks }

/-- The all-acks reply stream (`getpacket()` always returns `b'OK'`). -/
def allOk : Nat → Bool := fun _ => true

/-- A block buffer is either absent or exactly `bs` bytes long. -/
def blockSized (bs : Nat) : Option (List Nat) → Bool
  | none => true
  | some d => d.length == bs

/-- Every staged (present) block buffer has exactly `blocksize` bytes. -/
def blockInv (m : FlashMemory) : Bool :=
  m.blocks.all (blockSized m.blocksize)

/-- A `<property>` element nested in a memory-map `<memory>` element
(attribute values already parsed to numbers, as `eval` does in the source). -/
structure MemProperty where
  pname : List Nat
  pvalue : Nat
deriving DecidableEq

/-- A `<memory>` element of the target's XML memory map. -/
structure MemoryRange where
  mtype : List Nat
  mstart : Nat
  mlength : Nat
  props : List MemProperty
deriving DecidableEq

/-- The inner `for property ...: if name == "blocksize": ...; break` loop of
`Target.flash_probe`: value of the first `blocksize` property, if any. -/
def findBlocksize : List MemProperty → Option Nat
  | [] => none
  | p :: ps => if p.pname = strBytes "blocksize" then some p.pvalue else findBlocksize ps

/-- The `for memrange ...` loop of `Target.flash_probe`.  `bs` is the current
binding of the Python local variable `blocksize`, which persists across loop
iterations: a flash range with no `blocksize` property silently reuses the
previous binding, and only when no binding exists yet does Python raise
`NameError` (modelled as the error case). -/
def flashProbeLoop :
    List MemoryRange → Option Nat → List FlashMemory → Except String (List FlashMemory)
  | [], _, acc => Except.ok acc.reverse
  | r :: rs, bs, acc =>
    if r.mtype = strBytes "flash" then
      match (match findBlocksize r.props with | some v => some v | none => bs) with
      | none => Except.error "NameError: name 'blocksize' is not defined"
      | some b => flashProbeLoop rs (some b) (flashInit r.mstart r.mlength b :: acc)
    else flashProbeLoop rs bs acc

/-- `Target.flash_probe` on an already-parsed memory-map document. -/
def flash_probe (doc : List MemoryRange) : Except String (List FlashMemory) :=
  flashProbeLoop doc none []

/-- The containment test of `Target.flash_write_prepare`:
`(address >= m.offset) and (address + len(data) <= m.offset + m.length)`. -/
def containsRange (m : FlashMemory) (addr n : Nat) : Prop :=
  m.offset ≤ addr ∧ addr + n ≤ m.offset + m.length

instance (m : FlashMemory) (addr n : Nat) : Decidable (containsRange m addr n) :=
  inferInstanceAs (Decidable (_ ∧ _))

/-- `Target.flash_write_prepare(address, data)`: stage `data` into every
discovered region that fully contains the written range; regions that do not
contain it are left untouched.  `none` models an exception raised by a
`prog` call. -/
def flash_write_prepare : List FlashMemory → Nat → List Nat → Option (List FlashMemory)
  | [], _, _ => some []
  | m :: ms, addr, data =>
    if containsRange m addr data.length then
      (prog m addr data).bind
        (fun m' => (flash_write_prepare ms addr data).map (fun r => m' :: r))
    else (flash_write_prepare ms addr data).map (fun r => m :: r)

/-- A small 4-block region (64 bytes, 16-byte blocks) with exactly one staged
block, obtained by one accepted `prog` call. -/
def smallStagedRegion : FlashMemory :=
  (prog (flashInit 0 64 16) 0 [1]).getD (flashInit 0 0 1)

/-- First staged state of the C2 scenario: a 0x10000-byte region with
0x1000-byte blocks after one `prog` into block 3. -/
def c2m1 : FlashMemory :=
  (prog (flashInit 0 65536 4096) 12290 [17, 34, 51]).getD (flashInit 0 0 1)

/-- Second staged state of the C2 scenario: a further overlapping `prog`
into block 3. -/
def c2m2 : FlashMemory := (prog c2m1 12291 [9]).getD (flashInit 0 0 1)

/-- A staged region used to witness invariant preservation by `prog`. -/
def w9Region : FlashMemory :=
  (prog (flashInit 0 32 8) 3 [1, 2, 3]).getD (flashInit 0 0 1)

/-- A memory-map document with two flash ranges where only the first carries
a `blocksize` property. -/
def probeDoc : List MemoryRange :=
  [⟨strBytes "flash", 134217728, 131072, [⟨strBytes "blocksize", 1024⟩]⟩,
   ⟨strBytes "flash", 135266304, 65536, []⟩]

/-- A memory-map document whose single flash range has no `blocksize`
property. -/
def probeDocMissing : List MemoryRange := [⟨strBytes "flash", 0, 4096, []⟩]

theorem hexVal_hexDigit : ∀ d, d < 16 → hexVal (hexDigit d) = some d := by decide

theorem gpRun_seek_dollar (outs rest : List Nat) :
    gpRun outs .seek (36 :: rest) = gpRun outs (.body [] 0) rest := by
  simp [gpRun]

theorem gpRun_body_hash (outs acc : List Nat) (csum : Nat) (rest : List Nat) :
    gpRun outs (.body acc csum) (35 :: rest) = gpRun outs (.check1 acc csum) rest := by
  simp [gpRun]

theorem gpRun_body_lit (outs acc : List Nat) (csum c : Nat) (rest : List Nat)
    (h35 : c ≠ 35) (h36 : c ≠ 36) (h125 : c ≠ 125) :
    gpRun outs (.body acc csum) (c :: rest) =
      gpRun outs (.body (acc ++ [c]) (csum + c)) rest := by
  simp [gpRun, h35, h36, h125]

theorem gpRun_body_escape (outs acc : List Nat) (csum : Nat) (rest : List Nat) :
    gpRun outs (.body acc csum) (125 :: rest) = gpRun outs (.esc acc csum) rest := by
  simp [gpRun]

theorem gpRun_esc_step (outs acc : List Nat) (csum d : Nat) (rest : List Nat) :
    gpRun outs (.esc acc csum) (d :: rest) =
      gpRun outs (.body (acc ++ [d ^^^ 32]) (csum + d + 125)) rest := by
  simp [gpRun]

theorem gpRun_check1_step (outs acc : List Nat) (csum c d1 : Nat) (rest : List Nat)
    (h : hexVal c = some d1) :
    gpRun outs (.check1 acc csum) (c :: rest) =
      gpRun outs (.check2 acc csum d1) rest := by
  simp [gpRun, h]

theorem gpRun_check2_ok (outs acc : List Nat) (csum d1 c d2 : Nat) (rest : List Nat)
    (h : hexVal c = some d2) (hok : csum % 256 = 16 * d1 + d2) :
    gpRun outs (.check2 acc csum d1) (c :: rest) = some (outs ++ [43], acc, rest) := by
  simp [gpRun, h, hok]

theorem gpRun_check2_bad (outs acc : List Nat) (csum d1 c d2 : Nat) (rest : List Nat)
    (h : hexVal c = some d2) (hbad : csum % 256 ≠ 16 * d1 + d2) :
    gpRun outs (.check2 acc csum d1) (c :: rest) = gpRun (outs ++ [45]) .seek rest := by
  simp [gpRun, h, hbad]

theorem gpRun_body_escaped (p : List Nat) : ∀ outs acc csum tail,
    gpRun outs (.body acc csum) (escaped p ++ tail) =
      gpRun outs (.body (acc ++ p) (csum + (escaped p).sum)) tail := by
  induction p with
  | nil => intro outs acc csum tail; simp [escaped]
  | cons c p ih =>
    intro outs acc csum tail
    by_cases hc : c = 36 ∨ c = 35 ∨ c = 125
    · have h1 : escaped (c :: p) = 125 :: (c ^^^ 32) :: escaped p := by
        simp [escaped, escape1, hc]
      have hx : (c ^^^ 32) ^^^ 32 = c := by
        rw [Nat.xor_assoc, Nat.xor_self, Nat.xor_zero]
      rw [h1, List.cons_append, List.cons_append, gpRun_body_escape, gpRun_esc_step,
        hx, ih]
      have hacc : acc ++ [c] ++ p = acc ++ c :: p := by simp
      have hcs : csum + (c ^^^ 32) + 125 + (escaped p).sum =
          csum + (escaped (c :: p)).sum := by
        rw [h1]; simp [List.sum_cons]; ring
      rw [hacc, hcs, h1]
    · push_neg at hc
      obtain ⟨hc36, hc35, hc125⟩ := hc
      have h1 : escaped (c :: p) = c :: escaped p := by
        simp [escaped, escape1, hc36, hc35, hc125]
      rw [h1, List.cons_append, gpRun_body_lit _ _ _ _ _ hc35 hc36 hc125, ih]
      have hacc : acc ++ [c] ++ p = acc ++ c :: p := by simp
      have hcs : csum + c + (escaped p).sum = csum + (escaped (c :: p)).sum := by
        rw [h1]; simp [List.sum_cons]; ring
      rw [hacc, hcs, h1]

theorem gpRun_frame (q tail outs : List Nat) :
    gpRun outs .seek (putpacketBytes q ++ tail) = some (outs ++ [43], q, tail) := by
  have hs : (escaped q).sum % 256 < 256 := Nat.mod_lt _ (by norm_num)
  have hd1 : (escaped q).sum % 256 / 16 < 16 := by omega
  have hd2 : (escaped q).sum % 256 % 16 < 16 := Nat.mod_lt _ (by norm_num)
  rw [putpacketBytes]
  simp only [List.cons_append, List.append_assoc, List.nil_append]
  rw [gpRun_seek_dollar, gpRun_body_escaped]
  simp only [List.cons_append, List.nil_append]
  rw [gpRun_body_hash, gpRun_check1_step _ _ _ _ _ _ (hexVal_hexDigit _ hd1),
    gpRun_check2_ok _ _ _ _ _ _ _ (hexVal_hexDigit _ hd2) (by omega)]

/-- C1: for every payload `p` (arbitrary byte values, including the reserved
bytes `$`, `#`, `}`), feeding the wire bytes of `Target.putpacket` into
`Target.getpacket` succeeds (checksum matches), returns exactly `p`, writes a
single ack byte `+`, and consumes exactly the frame. -/
theorem putpacket_getpacket_roundtrip (p tail : List Nat) :
    getpacket (putpacketBytes p ++ tail) = some ([43], p, tail) := by
  have h := gpRun_frame p tail []
  simpa [getpacket] using h

/-- C4: when `Target.getpacket` completes a frame whose two checksum digits
do not match the accumulated sum mod 256, it writes exactly one nak byte `-`
and retries without surfacing an error; on the following frame with a correct
checksum it writes exactly one ack byte `+` and returns that frame's
payload. -/
theorem getpacket_nak_then_ack (p q tail : List Nat) (d1 d2 : Nat)
    (h1 : d1 < 16) (h2 : d2 < 16)
    (hbad : 16 * d1 + d2 ≠ (escaped p).sum % 256) :
    getpacket (corruptFrame p d1 d2 ++ (putpacketBytes q ++ tail)) =
      some ([45, 43], q, tail) := by
  rw [getpacket, corruptFrame]
  simp only [List.cons_append, List.append_assoc, List.nil_append]
  rw [gpRun_seek_dollar, gpRun_body_escaped]
  simp only [List.cons_append, List.nil_append]
  rw [gpRun_body_hash, gpRun_check1_step _ _ _ _ _ _ (hexVal_hexDigit _ h1),
    gpRun_check2_bad _ _ _ _ _ _ _ (hexVal_hexDigit _ h2)
      (by simpa using fun h => hbad h.symm),
    gpRun_frame]
  rfl

/-- Witness for C4 at concrete inputs: payload `[65]` has checksum 65
(= 0x41), so digits `0 0` are corrupt; the retried frame carries `[66]`. -/
theorem getpacket_nak_then_ack_witness :
    getpacket (corruptFrame [65] 0 0 ++ (putpacketBytes [66] ++ [])) =
      some ([45, 43], [66], []) :=
  getpacket_nak_then_ack [65] [66] [] 0 0 (by decide) (by decide) (by decide)

theorem commit_blocks_cases (m : FlashMemory) (cb : Bool) (replies : Nat → Bool) :
    ((commit m cb replies).error = none →
      (commit m cb replies).blocks = List.replicate (m.length / m.blocksize) none) ∧
    (∀ e, (commit m cb replies).error = some e →
      (commit m cb replies).blocks = m.blocks) := by
  cases hE : (commitLoop m.offset m.blocksize
      (m.blocks.countP (fun b => b.isSome)) cb replies m.blocks 0 0 0).2.2 with
  | none =>
    refine ⟨fun _ => ?_, fun e he => ?_⟩
    · simp [commit, hE]
    · simp [commit, hE] at he
  | some e0 =>
    refine ⟨fun h => ?_, fun e he => ?_⟩
    · simp [commit, hE] at h
    · simp [commit, hE]

/-- C5 (amended): after a `commit()` that returns successfully the block
buffer array is reset to all-absent; а `commit()` that aborts with a flash
erase, write, or commit failure leaves the staged block buffers unchanged
(the reset is only reached after the loop completes). -/
theorem commit_reset_blocks_behavior (m : FlashMemory) (cb : Bool) (replies : Nat → Bool) :
    ((commit m cb replies).error = none →
      (commit m cb replies).blocks = List.replicate (m.length / m.blocksize) none) ∧
    (∀ e, (commit m cb replies).error = some e →
      (commit m cb replies).blocks = m.blocks) :=
  commit_blocks_cases m cb replies

/-- Witness for C5 (amended) at a concrete region: a successful commit of
`smallStagedRegion` resets all four blocks to absent. -/
theorem commit_reset_blocks_behavior_witness :
    (commit smallStagedRegion false allOk).blocks =
      List.replicate (smallStagedRegion.length / smallStagedRegion.blocksize) none :=
  (commit_reset_blocks_behavior smallStagedRegion false allOk).1 (by decide)

/-- Counterexample to C5 as stated: when the first erase reply is not `OK`,
`commit()` aborts with "Failed to erase flash" and the block buffer array is
NOT reset — the staged block is still present afterwards. -/
theorem commit_abort_keeps_blocks_cex :
    (commit smallStagedRegion false (fun _ => false)).error = some "Failed to erase flash" ∧
    (commit smallStagedRegion false (fun _ => false)).blocks ≠ List.replicate 4 none ∧
    (commit smallStagedRegion false (fun _ => false)).blocks = smallStagedRegion.blocks := by
  decide

/-- C7 (code bug): with a callback supplied and a single touched block among
four, `commit()` invokes the callback once per block index (4 times, not
once), before processing each block, with `block*100/totalblocks` where
`block` counts all indices — so the reported percentages are 100, 200, 300,
400 (exceeding 100) instead of ending at exactly 100 after the one touched
block. -/
theorem commit_progress_called_per_index :
    smallStagedRegion.blocks.countP (fun b => b.isSome) = 1 ∧
    (commit smallStagedRegion true allOk).progressCalls =
      [(1, 1), (2, 1), (3, 1), (4, 1)] ∧
    (commit smallStagedRegion true allOk).progressCalls.map
      (fun pr => pr.1 * 100 / pr.2) = [100, 200, 300, 400] := by
  decide

/-- C3 (code bug): for every non-empty, non-error, hex-decodable reply,
`read_regs` does not return the decoded 32-bit words — it raises
`NameError` because the `array` module is never imported in gdb.py. -/
theorem read_regs_raises_nameerror (reply : List Nat) (h1 : reply ≠ [])
    (h2 : reply.head? ≠ some 69) (ws : List Nat) (h3 : unhexify reply = some ws) :
    read_regs reply = Except.error "NameError: name 'array' is not defined" := by
  rw [read_regs, if_neg (by simp [h1, h2]), h3]

/-- Witness for C3 at the concrete reply `b"00112233"` (which hex-decodes to
four bytes, i.e. one 32-bit register). -/
theorem read_regs_raises_nameerror_witness :
    read_regs (strBytes "00112233") =
      Except.error "NameError: name 'array' is not defined" :=
  read_regs_raises_nameerror (strBytes "00112233") (by decide) (by decide)
    [0, 17, 34, 51] (by decide)

/-- C6 (code bug): a stop reply beginning with the segmentation-fault token
`b"T0B"` makes `run_stub` raise `Invalid stop response: b'T0B'` WITHOUT the
`(SIGSEGV)` annotation: the signal dictionary's keys are `str` while the
reply is `bytes`, so the lookup always raises `KeyError`, which is swallowed.
The raised message contains the raw reply but never names the signal. -/
theorem run_stub_sigsegv_message_unnamed :
    run_stub_stop_check (strBytes "T0B") =
      some (strBytes "Invalid stop response: " ++ pyByteRepr (strBytes "T0B")) ∧
    bytesContains (strBytes "SIGSEGV")
      (strBytes "Invalid stop response: " ++ pyByteRepr (strBytes "T0B")) = false := by
  decide

/-- Counterexample to C8 as stated: in a memory map whose first flash range
carries a `blocksize` property and whose second flash range has none,
`flash_probe` does not fail — it constructs the second region with the first
range's block size (the Python local `blocksize` is still bound from the
previous loop iteration). -/
theorem flash_probe_stale_blocksize_cex :
    flash_probe probeDoc =
      Except.ok [flashInit 134217728 131072 1024, flashInit 135266304 65536 1024] := by
  rfl

/-- C8 (amended): a flash range with no `blocksize` property makes
`flash_probe` fail with an unbound-variable `NameError` only when it is the
first flash range of the document; otherwise the range silently reuses the
most recently seen block size. -/
theorem flash_probe_missing_blocksize_behavior :
    (∀ pre (r : MemoryRange) rs, (∀ x ∈ pre, x.mtype ≠ strBytes "flash") →
       r.mtype = strBytes "flash" → findBlocksize r.props = none →
       flash_probe (pre ++ r :: rs) =
         Except.error "NameError: name 'blocksize' is not defined") ∧
    (∀ (r : MemoryRange) rs bs acc, r.mtype = strBytes "flash" →
       findBlocksize r.props = none →
       flashProbeLoop (r :: rs) (some bs) acc =
         flashProbeLoop rs (some bs) (flashInit r.mstart r.mlength bs :: acc)) := by
  constructor
  · have key : ∀ (r : MemoryRange) rs, r.mtype = strBytes "flash" →
        findBlocksize r.props = none →
        ∀ pre, (∀ x ∈ pre, x.mtype ≠ strBytes "flash") → ∀ acc,
        flashProbeLoop (pre ++ r :: rs) none acc =
          Except.error "NameError: name 'blocksize' is not defined" := by
      intro r rs hr hf pre
      induction pre with
      | nil => intro _ acc; simp [flashProbeLoop, hr, hf]
      | cons x xs ih =>
        intro hall acc
        have hx : x.mtype ≠ strBytes "flash" := hall x (by simp)
        have hxs : ∀ y ∈ xs, y.mtype ≠ strBytes "flash" :=
          fun y hy => hall y (by simp [hy])
        simp only [List.cons_append, flashProbeLoop, if_neg hx]
        exact ih hxs acc
    intro pre r rs hall hr hf
    exact key r rs hr hf pre hall []
  · intro r rs bs acc hr hf
    simp [flashProbeLoop, hr, hf]

/-- Witness for C8 (amended) at a concrete document whose single flash range
lacks the blocksize property. -/
theorem flash_probe_missing_blocksize_behavior_witness :
    flash_probe probeDocMissing =
      Except.error "NameError: name 'blocksize' is not defined" :=
  flash_probe_missing_blocksize_behavior.1 []
    ⟨strBytes "flash", 0, 4096, []⟩ [] (by simp) rfl rfl

/-- C10: `flash_write_prepare` stages data only into regions that fully
contain the written range; regions not containing it are left unchanged, and
when no discovered region contains the range the call returns with every
region untouched and no error. -/
theorem flash_write_prepare_containment (mems : List FlashMemory) (addr : Nat)
    (data : List Nat) :
    ((∀ m ∈ mems, ¬ containsRange m addr data.length) →
       flash_write_prepare mems addr data = some mems) ∧
    (∀ mems', flash_write_prepare mems addr data = some mems' →
       mems'.length = mems.length ∧
       ∀ i d0, ¬ containsRange (mems.getD i d0) addr data.length →
         mems'.getD i d0 = mems.getD i d0) := by
  induction mems with
  | nil =>
    refine ⟨fun _ => rfl, fun mems' h => ?_⟩
    simp only [flash_write_prepare, Option.some.injEq] at h
    subst h
    exact ⟨rfl, fun i d0 _ => rfl⟩
  | cons m ms ih =>
    constructor
    · intro hall
      have hm : ¬ containsRange m addr data.length := hall m (by simp)
      have hms := ih.1 (fun x hx => hall x (by simp [hx]))
      simp [flash_write_prepare, hm, hms]
    · intro mems' h
      simp only [flash_write_prepare] at h
      by_cases hm : containsRange m addr data.length
      · rw [if_pos hm] at h
        cases hp : prog m addr data with
        | none => rw [hp] at h; exact absurd h (by simp)
        | some m2 =>
          rw [hp] at h
          cases hrec : flash_write_prepare ms addr data with
          | none => rw [hrec] at h; exact absurd h (by simp)
          | some r =>
            rw [hrec] at h
            simp only [Option.some_bind, Option.map_some', Option.some.injEq] at h
            subst h
            obtain ⟨hlen, hrest⟩ := ih.2 r hrec
            refine ⟨by simp [hlen], ?_⟩
            intro i d0 hni
            cases i with
            | zero => exact absurd hm (by simpa using hni)
            | succ j => simpa using hrest j d0 (by simpa using hni)
      · rw [if_neg hm] at h
        cases hrec : flash_write_prepare ms addr data with
        | none => rw [hrec] at h; exact absurd h (by simp)
        | some r =>
          rw [hrec] at h
          simp only [Option.map_some', Option.some.injEq] at h
          subst h
          obtain ⟨hlen, hrest⟩ := ih.2 r hrec
          refine ⟨by simp [hlen], ?_⟩
          intro i d0 hni
          cases i with
          | zero => rfl
          | succ j => simpa using hrest j d0 (by simpa using hni)

/-- Witness for C10 at a concrete region list: the written range [0,3) is
not contained in the single region [100,110), so nothing is staged and no
error is raised. -/
theorem flash_write_prepare_containment_witness :
    flash_write_prepare [flashInit 100 10 5] 0 [1, 2, 3] =
      some [flashInit 100 10 5] :=
  (flash_write_prepare_containment [flashInit 100 10 5] 0 [1, 2, 3]).1 (by decide)

theorem all_set {α : Type} (p : α → Bool) (l : List α) (n : Nat) (a : α)
    (hall : l.all p = true) (ha : p a = true) : (l.set n a).all p = true := by
  rw [List.all_eq_true] at hall ⊢
  intro x hx
  rcases List.mem_or_eq_of_mem_set hx with h | h
  · exact hall x h
  · subst h; exact ha

theorem getD_mem_or {α : Type} (l : List α) (n : Nat) (d : α) :
    l.getD n d ∈ l ∨ l.getD n d = d := by
  rw [List.getD_eq_getElem?_getD]
  cases h : l[n]? with
  | none => right; rfl
  | some x => left; simpa using List.getElem?_mem h

theorem splice_length (cur : List Nat) (p : Nat) (d : List Nat)
    (h2 : p + d.length ≤ cur.length) :
    (splice cur p d).length = cur.length := by
  simp only [splice, List.length_append, List.length_take, List.length_drop]
  omega

theorem progLoopF_inv (bs base : Nat) :
    ∀ (fuel : Nat) (data : List Nat) (blocks : List (Option (List Nat)))
      (off : Nat) (bl : List (Option (List Nat))),
      progLoopF bs base fuel blocks off data = some bl →
      blocks.all (blockSized bs) = true → bl.all (blockSized bs) = true := by
  intro fuel
  induction fuel with
  | zero =>
    intro data blocks off bl h hall
    cases data with
    | nil => simp only [progLoopF, Option.some.injEq] at h; subst h; exact hall
    | cons c ds => simp [progLoopF] at h
  | succ n ih =>
    intro data blocks off bl h hall
    cases data with
    | nil => simp only [progLoopF, Option.some.injEq] at h; subst h; exact hall
    | cons c ds =>
      by_cases hbs : bs = 0
      · simp [progLoopF, hbs] at h
      · by_cases hidx : (off - base) / bs < blocks.length
        · rw [progLoopF, if_neg hbs, if_pos hidx] at h
          refine ih _ _ _ _ h (all_set _ _ _ _ hall ?_)
          have hcur : ((blocks.getD ((off - base) / bs) none).getD
              (List.replicate bs 255)).length = bs := by
            cases hb : blocks.getD ((off - base) / bs) none with
            | none => simp
            | some dcur =>
              have hmem : some dcur ∈ blocks := by
                rcases getD_mem_or blocks ((off - base) / bs) none with hmem | hnone
                · rwa [hb] at hmem
                · rw [hb] at hnone; cases hnone
              have hsz := (List.all_eq_true.mp hall) _ hmem
              simp only [blockSized, beq_iff_eq] at hsz
              simpa using hsz
          have hmod : (off - base) % bs < bs := Nat.mod_lt _ (Nat.pos_of_ne_zero hbs)
          have htk : ((c :: ds).take (bs - (off - base) % bs)).length ≤
              bs - (off - base) % bs := by
            simp [List.length_take]
          simp only [blockSized, beq_iff_eq]
          rw [splice_length]
          · exact hcur
          · omega
        · simp [progLoopF, hbs, hidx] at h

/-- C9: every present block buffer of a `FlashMemory` is exactly `blocksize`
bytes long: the invariant holds after construction, is preserved by every
accepted `prog` call (prog is only accepted when the written range lies
inside the region, and splicing never changes a block's length), and is
preserved by `commit` (which on success leaves every block absent). -/
theorem flash_block_length_invariant :
    (∀ off len bs, blockInv (flashInit off len bs) = true) ∧
    (∀ (m : FlashMemory) (o : Nat) (data : List Nat) (m' : FlashMemory),
       prog m o data = some m' → blockInv m = true → blockInv m' = true) ∧
    (∀ (m : FlashMemory) (cb : Bool) (replies : Nat → Bool), blockInv m = true →
       blockInv { m with blocks := (commit m cb replies).blocks } = true ∧
       ((commit m cb replies).error = none →
         (commit m cb replies).blocks = List.replicate (m.length / m.blocksize) none)) := by
  refine ⟨?_, ?_, ?_⟩
  · intro off len bs
    rw [blockInv]
    simp [flashInit, blockSized]
  · intro m o data m' h hall
    rw [prog] at h
    split at h
    · cases hl : progLoop m.blocksize m.offset m.blocks o data with
      | none => rw [hl] at h; exact absurd h (by simp)
      | some bl =>
        rw [hl] at h
        simp only [Option.map_some', Option.some.injEq] at h
        subst h
        exact progLoopF_inv m.blocksize m.offset data.length data m.blocks o bl hl hall
    · exact absurd h (by simp)
  · intro m cb replies hall
    rcases hE : (commit m cb replies).error with _ | e
    · have hb := (commit_blocks_cases m cb replies).1 hE
      constructor
      · rw [blockInv]
        simp only [hb]
        rw [List.all_eq_true]
        intro b hbm
        rw [List.eq_of_mem_replicate hbm]
        rfl
      · intro _; exact hb
    · have hb := (commit_blocks_cases m cb replies).2 e hE
      constructor
      · rw [blockInv]
        simp only [hb]
        exact hall
      · intro hc; simp [hE] at hc

/-- Witness for C9: the invariant evaluated on a concretely staged region
obtained by an accepted `prog` call. -/
theorem flash_block_length_invariant_witness : blockInv w9Region = true :=
  flash_block_length_invariant.2.1 (flashInit 0 32 8) 3 [1, 2, 3] w9Region
    (by rfl) (by decide)

theorem div_mod_of_block (bs idx x : Nat) (hbs : 0 < bs)
    (h1 : bs * idx ≤ x) (h2 : x < bs * (idx + 1)) :
    x / bs = idx ∧ x % bs = x - bs * idx := by
  have hexp : bs * (idx + 1) = bs * idx + bs := by ring
  rw [hexp] at h2
  constructor
  · have hx : x = bs * idx + (x - bs * idx) := by omega
    rw [hx, Nat.mul_add_div hbs]
    have hz : (x - bs * idx) / bs = 0 := Nat.div_eq_of_lt (by omega)
    omega
  · have hx : x = bs * idx + (x - bs * idx) := by omega
    calc x % bs = (bs * idx + (x - bs * idx)) % bs := by rw [← hx]
    _ = (x - bs * idx) % bs := by rw [Nat.mul_add_mod]
    _ = x - bs * idx := Nat.mod_eq_of_lt (by omega)

theorem progLoop_single_block (bs base idx : Nat) (blocks : List (Option (List Nat)))
    (off : Nat) (data : List Nat) (hbs : 0 < bs) (hidx : idx < blocks.length)
    (hlo : base + bs * idx ≤ off) (hhi : off + data.length ≤ base + bs * (idx + 1))
    (hne : data ≠ []) :
    progLoop bs base blocks off data =
      some (blocks.set idx (some (splice
        ((blocks.getD idx none).getD (List.replicate bs 255))
        (off - (base + bs * idx)) data))) := by
  obtain ⟨c, ds, rfl⟩ := List.exists_cons_of_ne_nil hne
  have hlen : (c :: ds).length = ds.length + 1 := rfl
  have hexp : bs * (idx + 1) = bs * idx + bs := by ring
  rw [hexp] at hhi
  have hdm := div_mod_of_block bs idx (off - base) hbs (by omega)
    (by rw [hexp]; simp only [hlen] at hhi; omega)
  have hr : off - base - bs * idx = off - (base + bs * idx) := by omega
  rw [progLoop, hlen]
  simp only [progLoopF, hdm.1, hdm.2, hr]
  rw [if_neg (by omega), if_pos hidx]
  have htake : (c :: ds).take (bs - (off - (base + bs * idx))) = c :: ds := by
    apply List.take_of_length_le
    simp only [hlen] at hhi ⊢
    omega
  have hdrop : (c :: ds).drop (bs - (off - (base + bs * idx))) = [] := by
    apply List.drop_eq_nil_of_le
    simp only [hlen] at hhi ⊢
    omega
  rw [htake, hdrop]
  simp only [progLoopF]

theorem prog_single_block (m : FlashMemory) (off : Nat) (data : List Nat) (idx : Nat)
    (hbs : 0 < m.blocksize) (hidx : idx < m.blocks.length)
    (hlo : m.offset + m.blocksize * idx ≤ off)
    (hhi : off + data.length ≤ m.offset + m.blocksize * (idx + 1))
    (hin : off + data.length ≤ m.offset + m.length)
    (hne : data ≠ []) :
    prog m off data = some { m with blocks := m.blocks.set idx (some (splice
      ((m.blocks.getD idx none).getD (List.replicate m.blocksize 255))
      (off - (m.offset + m.blocksize * idx)) data)) } := by
  rw [prog, if_pos ⟨by omega, hin⟩,
    progLoop_single_block m.blocksize m.offset idx m.blocks off data hbs hidx hlo hhi hne]
  rfl

theorem writtenBytes_nil : writtenBytes [] = [] := rfl

theorem writtenBytes_write (a : Nat) (d : List Nat) (l : List FlashCmd) :
    writtenBytes (FlashCmd.write a d :: l) = d ++ writtenBytes l := rfl

theorem writtenBytes_erase (a n : Nat) (l : List FlashCmd) :
    writtenBytes (FlashCmd.erase a n :: l) = writtenBytes l := rfl

theorem writtenBytes_done (l : List FlashCmd) :
    writtenBytes (FlashCmd.done :: l) = writtenBytes l := rfl

theorem writtenBytes_append (l1 l2 : List FlashCmd) :
    writtenBytes (l1 ++ l2) = writtenBytes l1 ++ writtenBytes l2 := by
  simp [writtenBytes]

theorem eraseCmds_nil : eraseCmds [] = [] := rfl

theorem eraseCmds_write (a : Nat) (d : List Nat) (l : List FlashCmd) :
    eraseCmds (FlashCmd.write a d :: l) = eraseCmds l := rfl

theorem eraseCmds_erase (a n : Nat) (l : List FlashCmd) :
    eraseCmds (FlashCmd.erase a n :: l) = FlashCmd.erase a n :: eraseCmds l := rfl

theorem eraseCmds_done (l : List FlashCmd) :
    eraseCmds (FlashCmd.done :: l) = eraseCmds l := rfl

theorem eraseCmds_append (l1 l2 : List FlashCmd) :
    eraseCmds (l1 ++ l2) = eraseCmds l1 ++ eraseCmds l2 := by
  simp [eraseCmds]

theorem chunkWritesF_allOk (fuel : Nat) : ∀ (data : List Nat) (addr k : Nat),
    data.length ≤ fuel →
    (chunkWritesF allOk fuel addr data k).2.2 = none ∧
    writtenBytes (chunkWritesF allOk fuel addr data k).1 = data ∧
    eraseCmds (chunkWritesF allOk fuel addr data k).1 = [] := by
  induction fuel with
  | zero =>
    intro data addr k hlen
    cases data with
    | nil => exact ⟨rfl, rfl, rfl⟩
    | cons c ds => simp at hlen
  | succ n ih =>
    intro data addr k hlen
    cases data with
    | nil => exact ⟨rfl, rfl, rfl⟩
    | cons c ds =>
      have hak : allOk k = true := rfl
      have hrec := ih ((c :: ds).drop 980) (addr + ((c :: ds).take 980).length) (k + 1)
        (by simp only [List.length_drop, List.length_cons] at *; omega)
      simp only [chunkWritesF, hak, if_true]
      refine ⟨hrec.1, ?_, ?_⟩
      · rw [writtenBytes_write, hrec.2.1]
        exact List.take_append_drop 980 (c :: ds)
      · rw [eraseCmds_write, hrec.2.2]

theorem commitLoop_nil (off bs total : Nat) (cb : Bool) (replies : Nat → Bool)
    (i blk k : Nat) :
    commitLoop off bs total cb replies [] i blk k = ([], [], none) := rfl

theorem commitLoop_none_nocb (off bs total : Nat) (replies : Nat → Bool)
    (rest : List (Option (List Nat))) (i blk k : Nat) :
    commitLoop off bs total false replies (none :: rest) i blk k =
      commitLoop off bs total false replies rest (i + 1) (blk + 1) k := rfl

theorem commitLoop_replicate_none (off bs total : Nat) (replies : Nat → Bool) :
    ∀ n i blk k, commitLoop off bs total false replies (List.replicate n none) i blk k =
      ([], [], none) := by
  intro n
  induction n with
  | zero => intro i blk k; rfl
  | succ m ih =>
    intro i blk k
    rw [List.replicate_succ, commitLoop_none_nocb]
    exact ih _ _ _

theorem commitLoop_some_allOk (off bs total : Nat) (data : List Nat)
    (rest : List (Option (List Nat))) (i blk k : Nat) :
    commitLoop off bs total false allOk (some data :: rest) i blk k =
      (FlashCmd.erase (off + bs * i) bs ::
         (chunkWrites (off + bs * i) data allOk (k + 1)).1 ++ FlashCmd.done ::
         (commitLoop off bs total false allOk rest (i + 1) (blk + 1)
           ((chunkWrites (off + bs * i) data allOk (k + 1)).2.1 + 1)).1,
       (commitLoop off bs total false allOk rest (i + 1) (blk + 1)
           ((chunkWrites (off + bs * i) data allOk (k + 1)).2.1 + 1)).2.1,
       (commitLoop off bs total false allOk rest (i + 1) (blk + 1)
           ((chunkWrites (off + bs * i) data allOk (k + 1)).2.1 + 1)).2.2) := by
  have herr : (chunkWrites (off + bs * i) data allOk (k + 1)).2.2 = none :=
    (chunkWritesF_allOk data.length data (off + bs * i) (k + 1) le_rfl).1
  simp only [commitLoop]
  rw [herr]
  simp [allOk]

theorem commit_eval (off len bs : Nat) (bl : List (Option (List Nat)))
    (cb : Bool) (replies : Nat → Bool) :
    commit (FlashMemory.mk off len bs bl) cb replies =
      CommitOut.mk
        (commitLoop off bs (bl.countP (fun b => b.isSome)) cb replies bl 0 0 0).1
        (commitLoop off bs (bl.countP (fun b => b.isSome)) cb replies bl 0 0 0).2.1
        (commitLoop off bs (bl.countP (fun b => b.isSome)) cb replies bl 0 0 0).2.2
        (match (commitLoop off bs (bl.countP (fun b => b.isSome)) cb replies bl 0 0 0).2.2 with
         | none => List.replicate (len / bs) none
         | some _ => bl) := rfl

theorem replicate16_set (x : Option (List Nat)) :
    (List.replicate 16 (none : Option (List Nat))).set 3 x =
      none :: none :: none :: x :: List.replicate 12 none := rfl

theorem spine16_set (x y : Option (List Nat)) :
    (none :: none :: none :: x :: List.replicate 12 none).set 3 y =
      none :: none :: none :: y :: List.replicate 12 none := rfl

theorem spine16_getD (x d : Option (List Nat)) :
    (none :: none :: none :: x :: List.replicate 12 none).getD 3 d = x := rfl

theorem replicate16_getD (d : Option (List Nat)) :
    (List.replicate 16 (none : Option (List Nat))).getD 3 d = none := rfl

/-- C2: on a FlashRegion of length 0x10000 with block size 0x1000, after two
accepted `prog` calls with nonempty payloads whose ranges lie inside block
index 3, `commit` issues exactly one erase command — for block 3's address
range — and no erase for the other 15 blocks, and the bytes carried by its
write commands are the two payloads overlaid, in call order, on an all-0xFF
background. -/
theorem flash_commit_single_block_erase_overlay (base off1 off2 : Nat)
    (d1 d2 : List Nat) (m1 m2 : FlashMemory)
    (h1ne : d1 ≠ []) (h2ne : d2 ≠ [])
    (h1lo : base + 4096 * 3 ≤ off1) (h1hi : off1 + d1.length ≤ base + 4096 * 4)
    (h2lo : base + 4096 * 3 ≤ off2) (h2hi : off2 + d2.length ≤ base + 4096 * 4)
    (hp1 : prog (flashInit base 65536 4096) off1 d1 = some m1)
    (hp2 : prog m1 off2 d2 = some m2) :
    (commit m2 false allOk).error = none ∧
    eraseCmds (commit m2 false allOk).cmds = [FlashCmd.erase (base + 4096 * 3) 4096] ∧
    writtenBytes (commit m2 false allOk).cmds =
      splice (splice (List.replicate 4096 255) (off1 - (base + 4096 * 3)) d1)
        (off2 - (base + 4096 * 3)) d2 := by
  have e1 := prog_single_block (flashInit base 65536 4096) off1 d1 3
    (by show (0:Nat) < 4096; decide) (by show (3:Nat) < 16; decide)
    (by exact h1lo) (by exact h1hi)
    (by show off1 + d1.length ≤ base + 65536; omega) h1ne
  rw [hp1] at e1
  have hm1 := Option.some.inj e1
  have hof0 : (flashInit base 65536 4096).offset = base := rfl
  have hln0 : (flashInit base 65536 4096).length = 65536 := rfl
  have hbs0 : (flashInit base 65536 4096).blocksize = 4096 := rfl
  have hbl0 : (flashInit base 65536 4096).blocks = List.replicate 16 none := rfl
  rw [hbl0, replicate16_getD, Option.getD_none, hof0, hln0, hbs0,
    replicate16_set] at hm1
  subst hm1
  have e2 := prog_single_block
    (FlashMemory.mk base 65536 4096
      (none :: none :: none ::
        some (splice (List.replicate 4096 255) (off1 - (base + 4096 * 3)) d1) ::
        List.replicate 12 none)) off2 d2 3
    (by show (0:Nat) < 4096; decide) (by show (3:Nat) < 16; decide)
    (by exact h2lo) (by exact h2hi)
    (by show off2 + d2.length ≤ base + 65536; omega) h2ne
  rw [hp2] at e2
  have hm2 := Option.some.inj e2
  rw [show (FlashMemory.mk base 65536 4096
      (none :: none :: none ::
        some (splice (List.replicate 4096 255) (off1 - (base + 4096 * 3)) d1) ::
        List.replicate 12 none)).blocks =
      none :: none :: none ::
        some (splice (List.replicate 4096 255) (off1 - (base + 4096 * 3)) d1) ::
        List.replicate 12 none from rfl,
    spine16_getD, Option.getD_some,
    show (FlashMemory.mk base 65536 4096
      (none :: none :: none ::
        some (splice (List.replicate 4096 255) (off1 - (base + 4096 * 3)) d1) ::
        List.replicate 12 none)).offset = base from rfl,
    show (FlashMemory.mk base 65536 4096
      (none :: none :: none ::
        some (splice (List.replicate 4096 255) (off1 - (base + 4096 * 3)) d1) ::
        List.replicate 12 none)).length = 65536 from rfl,
    show (FlashMemory.mk base 65536 4096
      (none :: none :: none ::
        some (splice (List.replicate 4096 255) (off1 - (base + 4096 * 3)) d1) ::
        List.replicate 12 none)).blocksize = 4096 from rfl,
    spine16_set] at hm2
  subst hm2
  have hcw := chunkWritesF_allOk
    (splice (splice (List.replicate 4096 255) (off1 - (base + 4096 * 3)) d1)
      (off2 - (base + 4096 * 3)) d2).length
    (splice (splice (List.replicate 4096 255) (off1 - (base + 4096 * 3)) d1)
      (off2 - (base + 4096 * 3)) d2)
    (base + 4096 * 3) 1 le_rfl
  have hcw1 : writtenBytes (chunkWrites (base + 4096 * 3)
      (splice (splice (List.replicate 4096 255) (off1 - (base + 4096 * 3)) d1)
        (off2 - (base + 4096 * 3)) d2) allOk 1).1 =
      splice (splice (List.replicate 4096 255) (off1 - (base + 4096 * 3)) d1)
        (off2 - (base + 4096 * 3)) d2 := hcw.2.1
  have hcw2 : eraseCmds (chunkWrites (base + 4096 * 3)
      (splice (splice (List.replicate 4096 255) (off1 - (base + 4096 * 3)) d1)
        (off2 - (base + 4096 * 3)) d2) allOk 1).1 = [] := hcw.2.2
  have hloop : ∀ total, commitLoop base 4096 total false allOk
      (none :: none :: none ::
        some (splice (splice (List.replicate 4096 255) (off1 - (base + 4096 * 3)) d1)
          (off2 - (base + 4096 * 3)) d2) ::
        List.replicate 12 none) 0 0 0 =
      (FlashCmd.erase (base + 4096 * 3) 4096 ::
        (chunkWrites (base + 4096 * 3)
          (splice (splice (List.replicate 4096 255) (off1 - (base + 4096 * 3)) d1)
            (off2 - (base + 4096 * 3)) d2) allOk 1).1 ++ [FlashCmd.done],
       [], none) := by
    intro total
    rw [commitLoop_none_nocb, commitLoop_none_nocb, commitLoop_none_nocb,
      commitLoop_some_allOk, commitLoop_replicate_none]
  rw [commit_eval, hloop]
  refine ⟨rfl, ?_, ?_⟩
  · show eraseCmds (FlashCmd.erase (base + 4096 * 3) 4096 ::
        (chunkWrites (base + 4096 * 3)
          (splice (splice (List.replicate 4096 255) (off1 - (base + 4096 * 3)) d1)
            (off2 - (base + 4096 * 3)) d2) allOk 1).1 ++ [FlashCmd.done]) = _
    rw [eraseCmds_append, eraseCmds_erase, hcw2, eraseCmds_done, eraseCmds_nil,
      List.append_nil]
  · show writtenBytes (FlashCmd.erase (base + 4096 * 3) 4096 ::
        (chunkWrites (base + 4096 * 3)
          (splice (splice (List.replicate 4096 255) (off1 - (base + 4096 * 3)) d1)
            (off2 - (base + 4096 * 3)) d2) allOk 1).1 ++ [FlashCmd.done]) = _
    rw [writtenBytes_append, writtenBytes_erase, hcw1, writtenBytes_done,
      writtenBytes_nil, List.append_nil]

/-- Witness for C2 at concrete inputs: two overlapping writes into block 3 of
a region based at 0. -/
theorem flash_commit_single_block_erase_overlay_witness :
    (commit c2m2 false allOk).error = none ∧
    eraseCmds (commit c2m2 false allOk).cmds = [FlashCmd.erase (0 + 4096 * 3) 4096] ∧
    writtenBytes (commit c2m2 false allOk).cmds =
      splice (splice (List.replicate 4096 255) (12290 - (0 + 4096 * 3)) [17, 34, 51])
        (12291 - (0 + 4096 * 3)) [9] :=
  flash_commit_single_block_erase_overlay 0 12290 12291 [17, 34, 51] [9] c2m1 c2m2
    (by decide) (by decide) (by decide) (by decide) (by decide) (by decide)
    (by rfl) (by rfl)
